import Mathlib

/-!
Verification development for vsed, an interactive sed-like find-and-replace tool.

Shallow embedding of `src/lib.rs`. Rust strings are modeled as `List Char`;
all concrete inputs considered here are ASCII, where Rust's byte length
(`str::len`) coincides with the character count, and Rust's Unicode
whitespace classes restrict to the ASCII whitespace characters modeled below.
Interactive decisions (the y/n answers eventually obtained by `apply_change`,
which re-prompts until a valid answer arrives) are modeled as a stream
`Nat → Bool` giving the resolved answer of the n-th prompt.
-/

deriving instance DecidableEq for Except

namespace Vsed

/-- `leadsWith pat s` holds when `pat` is a prefix of `s`
(Rust `str::starts_with` on the inputs used here). -/
def leadsWith : List Char → List Char → Bool
  | [], _ => true
  | _ :: _, [] => false
  | p :: ps, c :: cs => p = c && leadsWith ps cs

/-- Rust `str::contains` for a literal substring needle:
some suffix of `s` begins with `pat`. -/
def containsSub : List Char → List Char → Bool
  | [], pat => pat.isEmpty
  | c :: cs, pat => leadsWith pat (c :: cs) || containsSub cs pat

/-- Scan for `str::replace` with a nonempty needle: at each position, if the
needle is a prefix, emit the replacement and skip the needle, else keep the
character.  `skip` counts characters still to consume from a match already
emitted, so the recursion is structural on the string. -/
def replaceScan (pat rep : List Char) : Nat → List Char → List Char
  | _, [] => []
  | Nat.succ k, _ :: cs => replaceScan pat rep k cs
  | 0, c :: cs =>
    if leadsWith pat (c :: cs) && !pat.isEmpty then
      rep ++ replaceScan pat rep (pat.length - 1) cs
    else
      c :: replaceScan pat rep 0 cs

/-- Rust `str::replace`: replaces every non-overlapping occurrence of `pat`
in `s`, left to right.  An empty needle matches at every character boundary,
including both ends (`"ab".replace("", "-") == "-a-b-"`). -/
def replaceAll (s pat rep : List Char) : List Char :=
  if pat.isEmpty then rep ++ s.foldr (fun c acc => c :: (rep ++ acc)) []
  else replaceScan pat rep 0 s

/-- Modelled from the spec: the spec's substitution ("compute the candidate
replacement by substituting the first occurrence of `pattern` with
`replacement` in the line") replaces only the FIRST occurrence.  Stated here
for comparison with the code's `replaceAll`; it is not what `lib.rs` does. -/
def specFirstSub (pat rep : List Char) : List Char → List Char
  | [] => if pat.isEmpty then rep else []
  | c :: cs =>
    if leadsWith pat (c :: cs) then rep ++ (c :: cs).drop pat.length
    else c :: specFirstSub pat rep cs

/-- ASCII restriction of Rust `char::is_whitespace`. -/
def isWs (c : Char) : Bool :=
  c = ' ' || c = '\t' || c = '\n' || c = '\x0b' || c = '\x0c' || c = '\r'

/-- Rust `str::trim_start` (ASCII): drop leading whitespace. -/
def trimLeft (l : List Char) : List Char := l.dropWhile isWs

/-- Rust `str::trim_end` (ASCII): drop trailing whitespace. -/
def trimRight : List Char → List Char
  | [] => []
  | c :: cs =>
    if trimRight cs = [] ∧ isWs c = true then [] else c :: trimRight cs

/-- Rust `str::trim` (ASCII): drop leading and trailing whitespace. -/
def trimWS (l : List Char) : List Char := trimRight (trimLeft l)

/-- Rust `BufRead::lines` as a pure function on file content: split on
newline characters; a trailing newline produces no extra empty line; a final
unterminated line is still yielded; empty content yields no lines.
(The CRLF handling of `lines` — stripping a `'\r'` left before a `'\n'` —
is subsumed in this development by the `trim` that `lazy_read_lines`
applies to every line, since `'\r'` is whitespace.) -/
def rlines : List Char → List (List Char)
  | [] => []
  | c :: cs =>
    if c = '\n' then [] :: rlines cs
    else
      match rlines cs with
      | [] => [[c]]
      | l :: ls => (c :: l) :: ls

/-- Concatenate lines, terminating every line with `'\n'`
(the accumulated effect of one `writeln!` per line). -/
def concatLines : List (List Char) → List Char
  | [] => []
  | l :: ls => l ++ '\n' :: concatLines ls

/-- The parsed search specification (`struct VimSearch`, lib.rs 90–97). -/
structure VimSearch where
  search_pattern : List Char
  replacement : List Char
  flags : List Char
  delimiter : Char
  string : List Char
deriving DecidableEq

/-- The error cases of `VimSearch::get_delimeter` (lib.rs 120–138), tagged
instead of carrying the Rust message strings. -/
inductive SpecErr where
  /-- "Search string must start with 's'" -/
  | notS : SpecErr
  /-- "Search string must have at least 6 characters" -/
  | tooShort : SpecErr
  /-- "Search string must have 3 delimiters, assumed ... found ...": the
  inferred delimiter and the count actually found. -/
  | badCount (d : Char) (n : Nat) : SpecErr
deriving DecidableEq

/-- Outcome of `VimSearch::new`: a parsed value, an `Err` return, or a Rust
panic (the out-of-bounds index on `search_parts`). -/
inductive ParseOutcome where
  | ok (v : VimSearch) : ParseOutcome
  | err (e : SpecErr) : ParseOutcome
  | panicked : ParseOutcome
deriving DecidableEq

/-- Rust `str::split(c)`: split at every occurrence of `c`, keeping empty
segments (so the result has one more segment than there are occurrences). -/
def splitAllOn (d : Char) : List Char → List (List Char)
  | [] => [[]]
  | c :: cs =>
    if c = d then [] :: splitAllOn d cs
    else
      match splitAllOn d cs with
      | [] => [[c]]
      | l :: ls => (c :: l) :: ls

/-- `VimSearch::get_delimeter` (lib.rs 120–138): require a leading `'s'`,
length at least 6, infer the delimiter as the character at position 1
(`chars().nth(1)`; the index exists because the length check passed, so the
default is never used), and require exactly 3 occurrences of it. -/
def VimSearch.get_delimeter (s : List Char) : Except SpecErr Char :=
  if leadsWith [ 's' ] s = false then Except.error SpecErr.notS
  else if s.length < 6 then Except.error SpecErr.tooShort
  else
    let d := s.getD 1 'a'
    let n := s.count d
    if n ≠ 3 then Except.error (SpecErr.badCount d n) else Except.ok d

/-- `VimSearch::new` (lib.rs 101–118): validate via `get_delimeter`, then
split the raw string by the HARDCODED character `'/'` (line 107 —
`search.split('/')` — not by the inferred delimiter) and index segments
1, 2 and 3; when fewer than 4 segments exist the indexing panics. -/
def VimSearch.new (search : List Char) : ParseOutcome :=
  match VimSearch.get_delimeter search with
  | Except.error e => ParseOutcome.err e
  | Except.ok d =>
    let parts := splitAllOn '/' search
    if h : 3 < parts.length then
      ParseOutcome.ok
        ⟨parts.get ⟨1, by omega⟩, parts.get ⟨2, by omega⟩,
         parts.get ⟨3, h⟩, d, search⟩
    else ParseOutcome.panicked

/-- Join segments with a delimiter character between consecutive segments
(the re-joining operation of the round-trip property). -/
def joinD (d : Char) : List (List Char) → List Char
  | [] => []
  | [l] => l
  | l :: ls => l ++ d :: joinD d ls

/-- One pass of the loop body of `read_file` (lib.rs 60–81) over the
already-trimmed lines, with `k` the number of prompts issued so far and
`dec` the stream of resolved interactive answers: a line containing the
search pattern as a literal substring is prompted (consuming one answer) and
staged either as the replaced line (accept) or unchanged (reject); any other
line is staged unchanged without prompting. -/
def stagedLines (vs : VimSearch) (dec : Nat → Bool) :
    Nat → List (List Char) → List (List Char)
  | _, [] => []
  | k, l :: ls =>
    if containsSub l vs.search_pattern then
      (if dec k then replaceAll l vs.search_pattern vs.replacement else l)
        :: stagedLines vs dec (k + 1) ls
    else
      l :: stagedLines vs dec k ls

/-- The sequence of candidate texts presented at prompts while processing the
given lines (lib.rs 64–66); independent of the answers given. -/
def promptsOf (vs : VimSearch) : List (List Char) → List (List Char)
  | [] => []
  | l :: ls =>
    if containsSub l vs.search_pattern then
      replaceAll l vs.search_pattern vs.replacement :: promptsOf vs ls
    else promptsOf vs ls

/-- Number of prompting (pattern-containing) lines among the first `i` lines:
the index into the answer stream used for line `i`. -/
def matchedCount (vs : VimSearch) (ls : List (List Char)) (i : Nat) : Nat :=
  (ls.take i).countP (fun l => containsSub l vs.search_pattern)

/-- The view of file content produced by `lazy_read_lines` (lib.rs 35–42):
the file's lines, each trimmed of leading and trailing whitespace. -/
def readLinesOf (c : List Char) : List (List Char) :=
  (rlines c).map trimWS

/-- The full content written to the staging buffer by one `read_file` job on
a file with content `c`: every decided line followed by a newline. -/
def stagedContent (vs : VimSearch) (dec : Nat → Bool) (c : List Char) : List Char :=
  concatLines (stagedLines vs dec 0 (readLinesOf c))

/-- The two filesystem locations involved in one `read_file` job: the job's
original path and the uniquely-named temporary staging file's path
(`NamedTempFile` guarantees the two are distinct). -/
inductive FPath where
  | originalPath : FPath
  | tmpPath : FPath
deriving DecidableEq

/-- Observable filesystem effect of one `read_file` job. -/
structure ReadFileEffect where
  staged : List Char
  persistedPath : FPath
  originalAfter : List Char
deriving DecidableEq

/-- `read_file` (lib.rs 50–87) on a file whose content is `orig`.  The commit
step at line 84 is `tmp_file.persist(tmp_file_path.clone())`, where
`tmp_file_path` was taken from `tmp_file.path()` at line 52: the staging file
is persisted onto ITS OWN temporary path, not onto `path`, so the content at
the original path is unchanged by a successful run. -/
def readFileModel (vs : VimSearch) (dec : Nat → Bool) (orig : List Char) :
    ReadFileEffect :=
  let staged := stagedContent vs dec orig
  let target : FPath := FPath.tmpPath
  ⟨staged, target, if target = FPath.originalPath then staged else orig⟩

/-- Failure of `File::open`, converted by `open` into its error return. -/
inductive OpenErr where
  | ioError : OpenErr
deriving DecidableEq

/-- `open` (lib.rs 25–33) over a modeled filesystem mapping paths to the
content of existing, readable files: a missing or unreadable path yields an
error RETURN (`Err(e.into())`), not a panic. -/
def openModel (fs : List Char → Option (List Char)) (path : List Char) :
    Except OpenErr (List Char) :=
  match fs path with
  | some c => Except.ok c
  | none => Except.error OpenErr.ioError

/-- Outcome of `lazy_read_lines`: the trimmed lines, or a panic. -/
inductive LinesOutcome where
  | ok (ls : List (List Char)) : LinesOutcome
  | panicked : LinesOutcome
deriving DecidableEq

/-- `lazy_read_lines` (lib.rs 35–42): line 36 is `open(path).unwrap()`, so an
open failure panics (aborting the process) instead of being propagated in the
function's `std::io::Result` return value. -/
def lazyReadLinesModel (fs : List Char → Option (List Char)) (path : List Char) :
    LinesOutcome :=
  match openModel fs path with
  | Except.error _ => LinesOutcome.panicked
  | Except.ok c => LinesOutcome.ok (readLinesOf c)

/-- Answer stream accepting every prompt. -/
def accAll : Nat → Bool := fun _ => true

/-- Answer stream rejecting every prompt. -/
def rejAll : Nat → Bool := fun _ => false

/-- The spec's running example `s/foo/bar/g`, parsed. -/
def vsFoo : VimSearch :=
  ⟨"foo".toList, "bar".toList, "g".toList, '/', "s/foo/bar/g".toList⟩

example : VimSearch.new ("s/foo/bar/g".toList) = ParseOutcome.ok vsFoo := by decide

example : VimSearch.get_delimeter ("s/foo/bar/g".toList) = Except.ok '/' := by decide

example : VimSearch.new ("s#a#b#".toList) = ParseOutcome.panicked := by decide

example :
    VimSearch.new ("s/a/b/".toList) =
      ParseOutcome.ok ⟨"a".toList, "b".toList, [], '/', "s/a/b/".toList⟩ := by decide

example : replaceAll ("foo again foo".toList) ("foo".toList) ("bar".toList) =
    "bar again bar".toList := by decide

example : specFirstSub ("foo".toList) ("bar".toList) ("foo again foo".toList) =
    "bar again foo".toList := by decide

example : trimWS ("  hello  ".toList) = "hello".toList := by decide

example : rlines ("a\nb".toList) = ["a".toList, "b".toList] := by decide

example : rlines ("a\nb\n".toList) = ["a".toList, "b".toList] := by decide

example : stagedContent vsFoo accAll ("foo\n".toList) = "bar\n".toList := by decide

example : stagedContent vsFoo rejAll ("  a\n".toList) = "a\n".toList := by decide

example :
    stagedContent vsFoo (fun k => k = 0) ("hello foo\nno match here\nfoo again foo".toList) =
      "hello bar\nno match here\nfoo again foo\n".toList := by decide

example :
    promptsOf vsFoo (readLinesOf ("hello foo\nno match here\nfoo again foo".toList)) =
      ["hello bar".toList, "bar again bar".toList] := by decide

example :
    lazyReadLinesModel (fun _ => none) ("missing.txt".toList) = LinesOutcome.panicked := by decide

/-! Helper lemmas about the embedded operations. -/

theorem stagedLines_idx (vs : VimSearch) (dec : Nat → Bool) :
    ∀ (ls : List (List Char)) (k i : Nat) (l : List Char), ls[i]? = some l →
      (stagedLines vs dec k ls)[i]? =
        some (if containsSub l vs.search_pattern then
                (if dec (k + matchedCount vs ls i) then
                  replaceAll l vs.search_pattern vs.replacement
                 else l)
              else l) := by
  intro ls
  induction ls with
  | nil => intro k i l h; simp at h
  | cons a rest ih =>
    intro k i l h
    cases i with
    | zero =>
      rw [List.getElem?_cons_zero] at h
      injection h with h
      subst h
      by_cases hc : containsSub a vs.search_pattern = true
      · simp only [stagedLines]
        rw [if_pos hc, List.getElem?_cons_zero, if_pos hc]
        simp [matchedCount]
      · simp only [stagedLines]
        rw [if_neg hc, List.getElem?_cons_zero, if_neg hc]
    | succ j =>
      rw [List.getElem?_cons_succ] at h
      by_cases hc : containsSub a vs.search_pattern = true
      · have hr := ih (k + 1) j l h
        have harg : k + matchedCount vs (a :: rest) (j + 1) =
            (k + 1) + matchedCount vs rest j := by
          simp only [matchedCount, List.take_succ_cons]
          rw [List.countP_cons_of_pos (fun x => containsSub x vs.search_pattern) _ hc]
          omega
        simp only [stagedLines]
        rw [if_pos hc, List.getElem?_cons_succ, hr, harg]
      · have hr := ih k j l h
        have harg : k + matchedCount vs (a :: rest) (j + 1) =
            k + matchedCount vs rest j := by
          simp only [matchedCount, List.take_succ_cons]
          rw [List.countP_cons_of_neg (fun x => containsSub x vs.search_pattern) _ hc]
        simp only [stagedLines]
        rw [if_neg hc, List.getElem?_cons_succ, hr, harg]

theorem promptsOf_append (vs : VimSearch) :
    ∀ (xs ys : List (List Char)),
      promptsOf vs (xs ++ ys) = promptsOf vs xs ++ promptsOf vs ys := by
  intro xs ys
  induction xs with
  | nil => rfl
  | cons a xs ih =>
    by_cases hc : containsSub a vs.search_pattern = true
    · simp [promptsOf, hc, ih]
    · simp [promptsOf, hc, ih]

theorem stagedLines_rejAll (vs : VimSearch) :
    ∀ (k : Nat) (ls : List (List Char)), stagedLines vs rejAll k ls = ls := by
  intro k ls
  induction ls generalizing k with
  | nil => rfl
  | cons a ls ih =>
    by_cases hc : containsSub a vs.search_pattern = true
    · simp [stagedLines, rejAll, hc, ih]
    · simp [stagedLines, hc, ih]

theorem trimLeft_idem (l : List Char) : trimLeft (trimLeft l) = trimLeft l := by
  induction l with
  | nil => rfl
  | cons a l ih =>
    by_cases ha : isWs a = true
    · simpa [trimLeft, List.dropWhile_cons, ha] using ih
    · simp [trimLeft, List.dropWhile_cons, ha]

theorem trimRight_cons (a : Char) (l : List Char) :
    trimRight (a :: l) =
      if trimRight l = [] ∧ isWs a = true then [] else a :: trimRight l := by
  simp [trimRight]

theorem trimRight_idem (l : List Char) : trimRight (trimRight l) = trimRight l := by
  induction l with
  | nil => rfl
  | cons a l ih =>
    by_cases h : trimRight l = [] ∧ isWs a = true
    · rw [trimRight_cons, if_pos h]; rfl
    · rw [trimRight_cons, if_neg h, trimRight_cons, ih, if_neg h]

theorem trimLeft_fix_of_head (l : List Char) (h : trimLeft l = l) :
    trimLeft (trimRight l) = trimRight l := by
  cases l with
  | nil => rfl
  | cons a l =>
    have ha : isWs a = false := by
      by_contra hw
      have hw' : isWs a = true := by
        cases hx : isWs a
        · exact absurd hx hw
        · rfl
      have := h
      rw [trimLeft, List.dropWhile_cons, hw'] at this
      have hlen := congrArg List.length this
      have hle : (List.dropWhile isWs l).length ≤ l.length :=
        (List.dropWhile_sublist (l := l) isWs).length_le
      simp at hlen
      omega
    by_cases hr : trimRight l = [] ∧ isWs a = true
    · exact absurd hr.2 (by simp [ha])
    · rw [trimRight, if_neg hr]
      simp [trimLeft, List.dropWhile_cons, ha]

theorem trimWS_idem (l : List Char) : trimWS (trimWS l) = trimWS l := by
  show trimRight (trimLeft (trimRight (trimLeft l))) = trimRight (trimLeft l)
  rw [trimLeft_fix_of_head (trimLeft l) (trimLeft_idem l), trimRight_idem]

theorem mem_of_mem_trimRight (c : Char) :
    ∀ (l : List Char), c ∈ trimRight l → c ∈ l := by
  intro l
  induction l with
  | nil => intro h; simp [trimRight] at h
  | cons a l ih =>
    intro h
    by_cases hr : trimRight l = [] ∧ isWs a = true
    · rw [trimRight, if_pos hr] at h
      simp at h
    · rw [trimRight, if_neg hr] at h
      rcases List.mem_cons.mp h with h1 | h2
      · exact h1 ▸ List.mem_cons_self a l
      · exact List.mem_cons_of_mem a (ih h2)

theorem mem_of_mem_trimLeft (c : Char) :
    ∀ (l : List Char), c ∈ trimLeft l → c ∈ l := by
  intro l
  induction l with
  | nil => intro h; simp [trimLeft] at h
  | cons a l ih =>
    intro h
    by_cases ha : isWs a = true
    · rw [trimLeft, List.dropWhile_cons, ha] at h
      simp at h
      exact List.mem_cons_of_mem a (ih h)
    · rw [trimLeft, List.dropWhile_cons] at h
      simp [ha] at h
      rcases h with h1 | h2
      · exact h1 ▸ List.mem_cons_self a l
      · exact List.mem_cons_of_mem a h2

theorem not_newline_trimWS (l : List Char) (h : ('\n') ∉ l) : ('\n') ∉ trimWS l := by
  intro hmem
  exact h (mem_of_mem_trimLeft '\n' l (mem_of_mem_trimRight '\n' (trimLeft l) hmem))

theorem rlines_no_newline :
    ∀ (s : List Char) (l : List Char), l ∈ rlines s → ('\n') ∉ l := by
  intro s
  induction s with
  | nil => intro l h; simp [rlines] at h
  | cons a s ih =>
    intro l h
    by_cases ha : a = '\n'
    · subst ha
      simp [rlines] at h
      rcases h with h | h
      · subst h; simp
      · exact ih l h
    · cases hr : rlines s with
      | nil =>
        simp [rlines, ha, hr] at h
        subst h
        simp [ha]
        exact fun e => ha e.symm
      | cons m ms =>
        simp [rlines, ha, hr] at h
        rcases h with h | h
        · subst h
          have hm : ('\n') ∉ m := ih m (hr ▸ List.mem_cons_self m ms)
          simp [ha, hm]
          exact fun e => ha e.symm
        · exact ih l (hr ▸ List.mem_cons_of_mem m h)

theorem rlines_append_newline (l : List Char) (h : ('\n') ∉ l) (t : List Char) :
    rlines (l ++ '\n' :: t) = l :: rlines t := by
  induction l with
  | nil => simp [rlines]
  | cons a l ih =>
    rw [List.mem_cons, not_or] at h
    have ha : ¬ (a = '\n') := fun e => h.1 e.symm
    show rlines (a :: (l ++ '\n' :: t)) = (a :: l) :: rlines t
    rw [rlines, if_neg ha, ih h.2]

theorem rlines_concatLines :
    ∀ (ls : List (List Char)), (∀ l ∈ ls, ('\n') ∉ l) → rlines (concatLines ls) = ls := by
  intro ls
  induction ls with
  | nil => intro _; rfl
  | cons l ls ih =>
    intro h
    show rlines (l ++ '\n' :: concatLines ls) = l :: ls
    rw [rlines_append_newline l (h l (List.mem_cons_self l ls)),
      ih (fun x hx => h x (List.mem_cons_of_mem l hx))]

theorem concatLines_last :
    ∀ (ls : List (List Char)), ls ≠ [] → (concatLines ls).getLast? = some '\n' := by
  intro ls
  induction ls with
  | nil => intro h; exact absurd rfl h
  | cons l ls ih =>
    intro _
    cases ls with
    | nil => exact List.getLast?_concat l
    | cons m ms =>
      show (l ++ '\n' :: concatLines (m :: ms)).getLast? = some '\n'
      have hne : concatLines (m :: ms) ≠ [] := by
        show (m ++ '\n' :: concatLines ms) ≠ []
        simp
      rw [List.append_cons, List.getLast?_append_of_ne_nil _ hne]
      exact ih (by simp)

theorem rlines_ne_nil (c : List Char) (h : c ≠ []) : rlines c ≠ [] := by
  cases c with
  | nil => exact absurd rfl h
  | cons a s =>
    by_cases ha : a = '\n'
    · simp [rlines, ha]
    · cases hr : rlines s with
      | nil => simp [rlines, ha, hr]
      | cons m ms => simp [rlines, ha, hr]

theorem stagedLines_length (vs : VimSearch) (dec : Nat → Bool) :
    ∀ (k : Nat) (ls : List (List Char)), (stagedLines vs dec k ls).length = ls.length := by
  intro k ls
  induction ls generalizing k with
  | nil => rfl
  | cons a ls ih =>
    by_cases hc : containsSub a vs.search_pattern = true
    · simp [stagedLines, hc, ih]
    · simp [stagedLines, hc, ih]

/-! Claim theorems. -/

/-- Claim C1, evaluated at a concrete job: on file content `"foo\n"` with spec
`s/foo/bar/g` and the prompt accepted, the staging buffer holds `"bar\n"`,
but the commit step (lib.rs 84) persists the staging file onto its own
temporary path, so after the run the original path still holds `"foo\n"` —
not the decided output lines the claim promises. -/
theorem c1_commit_misses_original_path :
    (readFileModel vsFoo accAll ("foo\n".toList)).staged = "bar\n".toList ∧
    (readFileModel vsFoo accAll ("foo\n".toList)).persistedPath = FPath.tmpPath ∧
    (readFileModel vsFoo accAll ("foo\n".toList)).originalAfter = "foo\n".toList ∧
    (readFileModel vsFoo accAll ("foo\n".toList)).originalAfter ≠
      (readFileModel vsFoo accAll ("foo\n".toList)).staged := by decide

/-- Claim C2, counterexample: on the line `"foo again foo"` with pattern
`"foo"`, replacement `"bar"`, and the prompt accepted, the code stages
`"bar again bar"` (every occurrence replaced, Rust `str::replace`), which
differs from the claim's first-occurrence result `"bar again foo"`
(computed by `specFirstSub`, modelled from the spec's words). -/
theorem c2_not_first_occurrence :
    stagedLines vsFoo accAll 0 [("foo again foo".toList)] = [("bar again bar".toList)] ∧
    specFirstSub ("foo".toList) ("bar".toList) ("foo again foo".toList) =
      "bar again foo".toList ∧
    ("bar again bar".toList) ≠ ("bar again foo".toList) := by decide

/-- Claim C2 (amended): for every line (at index `i` of the trimmed input
lines) containing the search pattern, the staged output line is the input
line with EVERY occurrence of the pattern replaced when the corresponding
prompt is accepted, and the unchanged input line when it is rejected. -/
theorem c2_matched_line_output (vs : VimSearch) (dec : Nat → Bool)
    (ls : List (List Char)) (i : Nat) (l : List Char)
    (h : ls[i]? = some l) (hc : containsSub l vs.search_pattern = true) :
    (stagedLines vs dec 0 ls)[i]? =
      some (if dec (matchedCount vs ls i) then
              replaceAll l vs.search_pattern vs.replacement
            else l) := by
  have h2 := stagedLines_idx vs dec ls 0 i l h
  rw [h2, if_pos hc, Nat.zero_add]

/-- Witness for the amended claim C2 at a concrete input. -/
theorem c2_matched_line_output_witness :
    (stagedLines vsFoo accAll 0 [("foo again foo".toList)])[0]? =
      some ("bar again bar".toList) := by
  have h := c2_matched_line_output vsFoo accAll [("foo again foo".toList)] 0
      ("foo again foo".toList) (by decide) (by decide)
  rw [h]
  decide

/-- Claim C3: the parser's precondition does NOT make the panic branch
unreachable.  The input `"s#a#b#"` satisfies the precondition (starts with
`'s'`, length 6, the character at position 1 occurs exactly 3 times), yet
`VimSearch::new` splits by the hardcoded `'/'` (lib.rs 107), obtains a single
segment, and panics on the out-of-bounds index `[1]` — despite the comment at
lib.rs 109 claiming the `get_delimeter` validation makes the indexing safe. -/
theorem c3_precondition_panics :
    (leadsWith [ 's' ] ("s#a#b#".toList) = true ∧
      6 ≤ ("s#a#b#".toList).length ∧
      ("s#a#b#".toList).count (("s#a#b#".toList).getD 1 'a') = 3) ∧
    VimSearch.new ("s#a#b#".toList) = ParseOutcome.panicked := by decide

/-- Claim C4, counterexample: the source file content `"  hello\n"` holds the
line `"  hello"`, but (with a pattern the line does not contain) the staged
line is the trimmed `"hello"`, not byte-for-byte the line as it appears in
the source file; no prompt is issued. -/
theorem c4_line_is_trimmed :
    rlines ("  hello\n".toList) = [("  hello".toList)] ∧
    stagedLines vsFoo accAll 0 (readLinesOf ("  hello\n".toList)) =
      [("hello".toList)] ∧
    ("hello".toList) ≠ ("  hello".toList) ∧
    promptsOf vsFoo (readLinesOf ("  hello\n".toList)) = [] := by decide

/-- Claim C4 (amended): for every trimmed input line (at index `i`) not
containing the search pattern, the staged output line is that trimmed line
unchanged, and the line contributes no prompt. -/
theorem c4_unmatched_line_passthrough (vs : VimSearch) (dec : Nat → Bool)
    (ls : List (List Char)) (i : Nat) (l : List Char)
    (h : ls[i]? = some l) (hc : containsSub l vs.search_pattern = false) :
    (stagedLines vs dec 0 ls)[i]? = some l ∧
    promptsOf vs (ls.take (i + 1)) = promptsOf vs (ls.take i) := by
  constructor
  · have h2 := stagedLines_idx vs dec ls 0 i l h
    rw [h2, if_neg (by simp [hc])]
  · have ht : ls.take (i + 1) = ls.take i ++ [l] := by
      rw [List.take_succ, h]
      rfl
    rw [ht, promptsOf_append]
    have hp : promptsOf vs [l] = [] := by
      simp [promptsOf, hc]
    rw [hp, List.append_nil]

/-- Witness for the amended claim C4 at a concrete input. -/
theorem c4_unmatched_line_passthrough_witness :
    ((stagedLines vsFoo accAll 0 [("no match here".toList)])[0]? =
        some ("no match here".toList)) ∧
      promptsOf vsFoo ([("no match here".toList)].take 1) =
        promptsOf vsFoo ([("no match here".toList)].take 0) :=
  c4_unmatched_line_passthrough vsFoo accAll [("no match here".toList)] 0
    ("no match here".toList) (by decide) (by decide)

/-- Claim C5: on a path with no readable file, `open` itself returns the
error as a value (`Err`), but `lazy_read_lines` unwraps that result
(lib.rs 36), so the failure is a panic — a process abort, not an error
result surfaced to the caller as the claim states. -/
theorem c5_open_error_panics :
    openModel (fun _ => none) ("missing.txt".toList) =
      Except.error OpenErr.ioError ∧
    lazyReadLinesModel (fun _ => none) ("missing.txt".toList) =
      LinesOutcome.panicked := by decide

/-- Claim C6, evaluated: for the valid spec string `"s.a.b."` (delimiter `'.'`
occurring exactly 3 times) parsing panics — there are no four segments to
re-join — so the round-trip property fails for every delimiter other than
`'/'`; for `"s/a/b/"` parsing succeeds and re-joining the four segments with
the delimiter does reproduce the original string. -/
theorem c6_roundtrip_eval :
    (("s.a.b.".toList).count (("s.a.b.".toList).getD 1 'a') = 3 ∧
      VimSearch.new ("s.a.b.".toList) = ParseOutcome.panicked) ∧
    (VimSearch.new ("s/a/b/".toList) =
        ParseOutcome.ok ⟨"a".toList, "b".toList, [], '/', "s/a/b/".toList⟩ ∧
      joinD '/' [("s".toList), ("a".toList), ("b".toList), ([] : List Char)] =
        "s/a/b/".toList) := by decide

/-- Claim C7: for every spec string starting with `'s'`, of length at least 6,
whose inferred delimiter (the character at position 1) occurs a number of
times different from 3, parsing fails with the delimiter-count parse error
naming that delimiter and count, and no `VimSearch` value is produced. -/
theorem c7_bad_count_is_error (s : List Char)
    (h1 : leadsWith [ 's' ] s = true) (h2 : 6 ≤ s.length)
    (h3 : s.count (s.getD 1 'a') ≠ 3) :
    VimSearch.new s =
      ParseOutcome.err (SpecErr.badCount (s.getD 1 'a') (s.count (s.getD 1 'a'))) := by
  have hnl : ¬ (s.length < 6) := by omega
  have h3q : ¬ (List.count (s[1]?.getD 'a') s = 3) := by
    simpa [List.getD] using h3
  simp [VimSearch.new, VimSearch.get_delimeter, h1, hnl, h3q]

/-- Witness for claim C7 at `"s/ab/c"`, whose delimiter `'/'` occurs twice. -/
theorem c7_bad_count_is_error_witness :
    VimSearch.new ("s/ab/c".toList) = ParseOutcome.err (SpecErr.badCount '/' 2) := by
  have h := c7_bad_count_is_error ("s/ab/c".toList) (by decide) (by decide) (by decide)
  rw [h]
  decide

/-- Claim C8, evaluated: `"s#a#b"` (length 5) fails with the length error —
not the delimiter-count error, although its `'#'` count is 2 ≠ 3 — so the
length check does come first; but `"s#a#b#"` (length 6) does NOT parse
successfully: it panics on the hardcoded-`'/'` split. -/
theorem c8_length_before_count :
    VimSearch.new ("s#a#b".toList) = ParseOutcome.err SpecErr.tooShort ∧
    ("s#a#b".toList).count '#' = 2 ∧
    VimSearch.new ("s#a#b#".toList) = ParseOutcome.panicked := by decide

/-- Claim C9, counterexample: the reject-all rewrite is not the identity on
file content — on `"  a\n"` the staging buffer receives the trimmed `"a\n"` —
and the run's persist step targets the temporary path, never the original. -/
theorem c9_reject_all_not_identity :
    stagedContent vsFoo rejAll ("  a\n".toList) = "a\n".toList ∧
    stagedContent vsFoo rejAll ("  a\n".toList) ≠ ("  a\n".toList) ∧
    (readFileModel vsFoo rejAll ("  a\n".toList)).persistedPath =
      FPath.tmpPath := by decide

/-- Claim C9 (amended): the reject-all rewrite of file content is idempotent
(staging the staged content changes nothing), and — because the commit never
touches the original path — the content at the original path after two runs
equals the original content. -/
theorem c9_reject_all_idempotent (vs : VimSearch) (c : List Char) :
    stagedContent vs rejAll (stagedContent vs rejAll c) =
      stagedContent vs rejAll c ∧
    (readFileModel vs rejAll
        ((readFileModel vs rejAll c).originalAfter)).originalAfter = c := by
  have hs : ∀ x : List Char,
      stagedContent vs rejAll x = concatLines ((rlines x).map trimWS) := by
    intro x
    show concatLines (stagedLines vs rejAll 0 (readLinesOf x)) = _
    rw [stagedLines_rejAll]
    rfl
  constructor
  · simp only [hs]
    have hnl : ∀ l ∈ (rlines c).map trimWS, ('\n') ∉ l := by
      intro l hl
      rcases List.mem_map.mp hl with ⟨m, hm, rfl⟩
      exact not_newline_trimWS m (rlines_no_newline c m hm)
    rw [rlines_concatLines _ hnl, List.map_map]
    have hfun : trimWS ∘ trimWS = trimWS := funext fun x => trimWS_idem x
    rw [hfun]
  · rfl

/-- Claim C10, counterexample: on an empty source file no line is ever
written, so the staged output content is empty and does not end in a
newline. -/
theorem c10_empty_source_no_newline :
    stagedContent vsFoo accAll [] = [] ∧
    (stagedContent vsFoo accAll []).getLast? ≠ some '\n' := by decide

/-- Claim C10 (amended): every staged line is newline-terminated, so for
every nonempty source content — in particular one whose final line lacks a
newline — the staged output content ends in a newline. -/
theorem c10_staged_ends_newline (vs : VimSearch) (dec : Nat → Bool)
    (c : List Char) (h : c ≠ []) :
    (stagedContent vs dec c).getLast? = some '\n' := by
  have h1 : rlines c ≠ [] := rlines_ne_nil c h
  have h2 : readLinesOf c ≠ [] := fun he => h1 (List.map_eq_nil_iff.mp he)
  have h3 : stagedLines vs dec 0 (readLinesOf c) ≠ [] := by
    intro he
    have hlen := stagedLines_length vs dec 0 (readLinesOf c)
    rw [he] at hlen
    exact h2 (List.length_eq_zero.mp hlen.symm)
  exact concatLines_last _ h3

/-- Witness for the amended claim C10: a one-line file with no trailing
newline stages content ending in a newline. -/
theorem c10_staged_ends_newline_witness :
    (stagedContent vsFoo accAll ("a".toList)).getLast? = some '\n' :=
  c10_staged_ends_newline vsFoo accAll ("a".toList) (by decide)

end Vsed
